import Mathlib

/-!
Shallow embedding of the pixter image-view core (src/lib.rs, src/image_ref.rs,
src/image_ref/iter.rs, src/physical_image.rs) and verification of the claims
about it.

Modelling conventions:
* Rust `usize` values are modelled as `Nat`.  A Rust subtraction `a - b` on
  `usize` whose result would underflow is an arithmetic error (a panic in
  debug builds); wherever an underflow is actually reachable we use the
  checked subtraction `checkedSub`, which returns `none` in the error case,
  so the error branch of the program is visible in the embedding.  Division
  and remainder by zero likewise panic in Rust and are mapped to `none`.
* A raw pointer into the backing storage is modelled as the function
  `base : Nat → α` from a linear cell address to the stored value; pointer
  offset arithmetic becomes index arithmetic on the argument.
* Fallible operations (`get`, `view`, …, which return Rust `Option`) return
  Lean `Option`.
-/

namespace Pixter

/-- Rust `usize::checked_sub`: `some (a - b)` when `b ≤ a`, otherwise `none`.
Also used to model a plain `usize` subtraction at the places where the
subtraction can actually underflow (a panic in debug builds). -/
def checkedSub (a b : ℕ) : Option ℕ :=
  if b ≤ a then some (a - b) else none

/-- `Rectangle` from src/lib.rs. -/
structure Rectangle where
  x : ℕ
  y : ℕ
  w : ℕ
  h : ℕ

/-- `Rectangle::contains` from src/lib.rs. -/
def Rectangle.contains (r : Rectangle) (x y : ℕ) : Prop :=
  r.x ≤ x ∧ x < r.x + r.w ∧ r.y ≤ y ∧ y < r.y + r.h

instance (r : Rectangle) (x y : ℕ) : Decidable (r.contains x y) := by
  unfold Rectangle.contains; infer_instance

/-- `ImageRef` from src/image_ref.rs: a borrowed rectangular window into a
backing buffer.  The pointer `ptr` is modelled by the address-to-value
function `base`. -/
structure ImageRef (α : Type) where
  base_width : ℕ
  base : ℕ → α
  roi_x : ℕ
  roi_y : ℕ
  roi_width : ℕ
  roi_height : ℕ

/-- `ReadPixel::width` for `ImageRef`. -/
def ImageRef.width (r : ImageRef α) : ℕ := r.roi_width

/-- `ReadPixel::height` for `ImageRef`. -/
def ImageRef.height (r : ImageRef α) : ℕ := r.roi_height

/-- `ReadPixel::valid_rect` for `ImageRef`. -/
def ImageRef.valid_rect (r : ImageRef α) : Rectangle :=
  ⟨0, 0, r.roi_width, r.roi_height⟩

/-- `ReadPixel::is_valid` (the default implementation from src/lib.rs,
which `ImageRef` does not override). -/
def ImageRef.is_valid (r : ImageRef α) (x y : ℕ) : Prop :=
  r.valid_rect.contains x y

instance (r : ImageRef α) (x y : ℕ) : Decidable (r.is_valid x y) := by
  unfold ImageRef.is_valid; infer_instance

/-- `ImageRef::get_unchecked`: the raw address computation
`(roi_y + y) * base_width + roi_x + x`. -/
def ImageRef.get_unchecked (r : ImageRef α) (x y : ℕ) : α :=
  r.base ((r.roi_y + y) * r.base_width + r.roi_x + x)

/-- `ReadPixel::get` (default implementation from src/lib.rs). -/
def ImageRef.get (r : ImageRef α) (x y : ℕ) : Option α :=
  if r.is_valid x y then some (r.get_unchecked x y) else none

/-- `View::view_is_valid` for `ImageRef`. -/
def ImageRef.view_is_valid (r : ImageRef α) (x y w h : ℕ) : Prop :=
  x + w ≤ r.roi_width ∧ y + h ≤ r.roi_height

instance (r : ImageRef α) (x y w h : ℕ) : Decidable (r.view_is_valid x y w h) := by
  unfold ImageRef.view_is_valid; infer_instance

/-- `View::view_unchecked` for `ImageRef`:
`ImageRef::new(base_width, ptr, x + roi_x, y + roi_y, w, h)`. -/
def ImageRef.view_unchecked (r : ImageRef α) (x y w h : ℕ) : ImageRef α :=
  ⟨r.base_width, r.base, x + r.roi_x, y + r.roi_y, w, h⟩

/-- `View::view` (default implementation from src/lib.rs). -/
def ImageRef.view (r : ImageRef α) (x y w h : ℕ) : Option (ImageRef α) :=
  if r.view_is_valid x y w h then some (r.view_unchecked x y w h) else none

/-- `ImageRefOverhang` from src/image_ref.rs. -/
structure ImageRefOverhang (α : Type) where
  valid_ref : ImageRef α
  valid_offset_x : ℕ
  valid_offset_y : ℕ
  width : ℕ
  height : ℕ

/-- Rust `isize::clamp(0, hi)` followed by `as usize`, for `0 ≤ hi`. -/
def clampToNat (v hi : ℤ) : ℕ := (min (max v 0) hi).toNat

/-- `View::view_overhang` for `ImageRef` (src/image_ref.rs lines 81–93).
`x`, `y` are signed (`isize`). -/
def ImageRef.view_overhang (r : ImageRef α) (x y : ℤ) (w h : ℕ) : ImageRefOverhang α :=
  let valid_x := clampToNat x r.roi_width
  let valid_y := clampToNat y r.roi_height
  let valid_width := clampToNat (x + w) r.roi_width - valid_x
  let valid_height := clampToNat (y + h) r.roi_height - valid_y
  ⟨r.view_unchecked valid_x valid_y valid_width valid_height,
    (max (-x) 0).toNat, (max (-y) 0).toNat, w, h⟩

/-- `ReadPixel::valid_rect` for `ImageRefOverhang`. -/
def ImageRefOverhang.valid_rect (o : ImageRefOverhang α) : Rectangle :=
  ⟨o.valid_offset_x, o.valid_offset_y, o.valid_ref.roi_width, o.valid_ref.roi_height⟩

/-- `ReadPixel::is_valid` for `ImageRefOverhang` (default implementation,
not overridden). -/
def ImageRefOverhang.is_valid (o : ImageRefOverhang α) (x y : ℕ) : Prop :=
  o.valid_rect.contains x y

instance (o : ImageRefOverhang α) (x y : ℕ) : Decidable (o.is_valid x y) := by
  unfold ImageRefOverhang.is_valid; infer_instance

/-- `ImageRefOverhang::get_unchecked`: delegates to the inner view at
`(x - valid_offset_x, y - valid_offset_y)`. -/
def ImageRefOverhang.get_unchecked (o : ImageRefOverhang α) (x y : ℕ) : α :=
  o.valid_ref.get_unchecked (x - o.valid_offset_x) (y - o.valid_offset_y)

/-- `ReadPixel::get` for `ImageRefOverhang` (default implementation). -/
def ImageRefOverhang.get (o : ImageRefOverhang α) (x y : ℕ) : Option α :=
  if o.is_valid x y then some (o.get_unchecked x y) else none

/-- `View::view_is_valid` for `ImageRefOverhang`:
`x.checked_sub(valid_offset_x).map(|x| x + w <= valid_ref.roi_width).unwrap_or(false)`
and the analogous condition for `y`. -/
def ImageRefOverhang.view_is_valid (o : ImageRefOverhang α) (x y w h : ℕ) : Bool :=
  (((checkedSub x o.valid_offset_x).map fun x =>
      decide (x + w ≤ o.valid_ref.roi_width)).getD false)
    && (((checkedSub y o.valid_offset_y).map fun y =>
      decide (y + h ≤ o.valid_ref.roi_height)).getD false)

/-- `View::view_unchecked` for `ImageRefOverhang`: delegates to the inner
view after subtracting the placement offsets. -/
def ImageRefOverhang.view_unchecked (o : ImageRefOverhang α) (x y w h : ℕ) : ImageRef α :=
  o.valid_ref.view_unchecked (x - o.valid_offset_x) (y - o.valid_offset_y) w h

/-- `View::view` for `ImageRefOverhang` (default implementation). -/
def ImageRefOverhang.view (o : ImageRefOverhang α) (x y w h : ℕ) : Option (ImageRef α) :=
  if o.view_is_valid x y w h then some (o.view_unchecked x y w h) else none

/-- `View::view_overhang` for `ImageRefOverhang`: delegates to the inner
view with the offsets subtracted (signed). -/
def ImageRefOverhang.view_overhang (o : ImageRefOverhang α) (x y : ℤ) (w h : ℕ) :
    ImageRefOverhang α :=
  o.valid_ref.view_overhang (x - (o.valid_offset_x : ℤ)) (y - (o.valid_offset_y : ℤ)) w h

/-- `PhysicalImage` from src/physical_image.rs.  The `Vec<T>` backing store is
modelled by its address-to-value function `data`. -/
structure PhysicalImage (α : Type) where
  width : ℕ
  height : ℕ
  data : ℕ → α

/-- `ReadPixel::is_valid` for `PhysicalImage` (overridden in the source). -/
def PhysicalImage.is_valid (p : PhysicalImage α) (x y : ℕ) : Prop :=
  x < p.width ∧ y < p.height

instance (p : PhysicalImage α) (x y : ℕ) : Decidable (p.is_valid x y) := by
  unfold PhysicalImage.is_valid; infer_instance

/-- `PhysicalImage::get_unchecked`: `data[width * y + x]`. -/
def PhysicalImage.get_unchecked (p : PhysicalImage α) (x y : ℕ) : α :=
  p.data (p.width * y + x)

/-- `ReadPixel::get` for `PhysicalImage`. -/
def PhysicalImage.get (p : PhysicalImage α) (x y : ℕ) : Option α :=
  if p.is_valid x y then some (p.get_unchecked x y) else none

/-- `View::view_is_valid` for `PhysicalImage`. -/
def PhysicalImage.view_is_valid (p : PhysicalImage α) (x y w h : ℕ) : Prop :=
  x + w ≤ p.width ∧ y + h ≤ p.height

instance (p : PhysicalImage α) (x y w h : ℕ) : Decidable (p.view_is_valid x y w h) := by
  unfold PhysicalImage.view_is_valid; infer_instance

/-- `View::view_unchecked` for `PhysicalImage`:
`ImageRef::new(width, data.as_ptr(), x, y, w, h)`. -/
def PhysicalImage.view_unchecked (p : PhysicalImage α) (x y w h : ℕ) : ImageRef α :=
  ⟨p.width, p.data, x, y, w, h⟩

/-- `View::view` for `PhysicalImage`. -/
def PhysicalImage.view (p : PhysicalImage α) (x y w h : ℕ) : Option (ImageRef α) :=
  if p.view_is_valid x y w h then some (p.view_unchecked x y w h) else none

/-- `View::view_overhang` for `PhysicalImage` (src/physical_image.rs lines
209–221, same clamp algebra as the `ImageRef` version). -/
def PhysicalImage.view_overhang (p : PhysicalImage α) (x y : ℤ) (w h : ℕ) :
    ImageRefOverhang α :=
  let valid_x := clampToNat x p.width
  let valid_y := clampToNat y p.height
  let valid_width := clampToNat (x + w) p.width - valid_x
  let valid_height := clampToNat (y + h) p.height - valid_y
  ⟨p.view_unchecked valid_x valid_y valid_width valid_height,
    (max (-x) 0).toNat, (max (-y) 0).toNat, w, h⟩

/-! ## Iterators (src/image_ref/iter.rs) -/

/-- `Iter` from src/image_ref/iter.rs: a double-ended cursor over the cells
of a view.  The `Range<usize>` field `range` is modelled by its two end
points `rangeStart`/`rangeEnd`. -/
structure Iter (α : Type) where
  base : ℕ → α
  base_width : ℕ
  offset_x : ℕ
  width : ℕ
  rangeStart : ℕ
  rangeEnd : ℕ

/-- `ExactSizeIterator::len`, i.e. `range.len()`. -/
def Iter.len (it : Iter α) : ℕ := it.rangeEnd - it.rangeStart

/-- The address computed by `Iter::next`/`next_back` for logical index `i`:
`base_width * (i / width) + offset_x + i % width`. -/
def Iter.addr (it : Iter α) (i : ℕ) : ℕ :=
  it.base_width * (i / it.width) + it.offset_x + i % it.width

/-- `Iterator::next` for `Iter`: yields the cell at `range.start` and
advances, or `none` when the range is empty. -/
def Iter.next (it : Iter α) : Option (α × Iter α) :=
  if it.rangeEnd ≤ it.rangeStart then none
  else some (it.base (it.addr it.rangeStart), { it with rangeStart := it.rangeStart + 1 })

/-- `DoubleEndedIterator::next_back` for `Iter`. -/
def Iter.next_back (it : Iter α) : Option (α × Iter α) :=
  if it.rangeEnd ≤ it.rangeStart then none
  else some (it.base (it.addr (it.rangeEnd - 1)), { it with rangeEnd := it.rangeEnd - 1 })

/-- `Producer::split_at` for `Iter`: splits the range at
`range.start + index`. -/
def Iter.split_at (it : Iter α) (index : ℕ) : Iter α × Iter α :=
  let index := it.rangeStart + index
  ({ it with rangeEnd := index }, { it with rangeStart := index })

/-- The sequence of items produced by consuming an `Iter` front to back
(repeated `next` until exhaustion). -/
def Iter.toList (it : Iter α) : List α :=
  (List.range' it.rangeStart (it.rangeEnd - it.rangeStart)).map fun i => it.base (it.addr i)

/-- The inner `Iter` built by `ImageRef::pix_iter` (src/image_ref.rs lines
96–113): `Iter::new(ptr, base_width, roi_x, roi_width, offset..offset + roi_width * roi_height)`
with `offset = roi_y * roi_width`. -/
def ImageRef.pix_iter_inner (r : ImageRef α) : Iter α :=
  let offset := r.roi_y * r.roi_width
  ⟨r.base, r.base_width, r.roi_x, r.roi_width, offset, offset + r.roi_width * r.roi_height⟩

/-- The inner `Iter` built by `ImageRef::pix_iter_serialized`
(src/image_ref.rs lines 116–134; the construction is the same as the one in
`pix_iter`). -/
def ImageRef.pix_iter_serialized_inner (r : ImageRef α) : Iter α :=
  let offset := r.roi_y * r.roi_width
  ⟨r.base, r.base_width, r.roi_x, r.roi_width, offset, offset + r.roi_width * r.roi_height⟩

/-- The condition tested by `IterOverhang::next`/`next_back` at outer logical
index `i`: the row-major position `(i % width, i / width)` lies inside the
valid sub-rectangle. -/
def inValid (iter_width iter_height offset_x offset_y width : ℕ) (i : ℕ) : Prop :=
  offset_x ≤ i % width ∧ i % width < offset_x + iter_width ∧
    offset_y ≤ i / width ∧ i / width < offset_y + iter_height

instance (vw vh ox oy w i : ℕ) : Decidable (inValid vw vh ox oy w i) := by
  unfold inValid; infer_instance

/-- `IterOverhang<I>` from src/image_ref/iter.rs.  It is generic over the
inner producer `I`; we model an inner producer by the list of its remaining
items, with `next = head?` (and advance = `tail`) and
`Producer::split_at k = (take k, drop k)`. -/
structure IterOverhang (α : Type) where
  iter : List α
  iter_width : ℕ
  iter_height : ℕ
  offset_x : ℕ
  offset_y : ℕ
  width : ℕ
  height : ℕ
  rangeStart : ℕ
  rangeEnd : ℕ

/-- `IterOverhang::new`: range is `0..width * height`. -/
def IterOverhang.new (iter : List α) (iter_width iter_height offset_x offset_y width height : ℕ) :
    IterOverhang α :=
  ⟨iter, iter_width, iter_height, offset_x, offset_y, width, height, 0, width * height⟩

/-- The validity test of `IterOverhang::next` at outer index `i`. -/
def IterOverhang.present (st : IterOverhang α) (i : ℕ) : Prop :=
  inValid st.iter_width st.iter_height st.offset_x st.offset_y st.width i

instance (st : IterOverhang α) (i : ℕ) : Decidable (st.present i) := by
  unfold IterOverhang.present; infer_instance

/-- `Iterator::next` for `IterOverhang`: emits `some item` (advancing the
inner iterator) at a present position and `none` at an absent one. -/
def IterOverhang.next (st : IterOverhang α) : Option (Option α × IterOverhang α) :=
  if st.rangeEnd ≤ st.rangeStart then none
  else
    let st' := { st with rangeStart := st.rangeStart + 1 }
    if st.present st.rangeStart then some (st.iter.head?, { st' with iter := st.iter.tail })
    else some (none, st')

/-- `IterOverhang::count_in_rect_from_0` (src/image_ref/iter.rs lines
330–345), with every potentially underflowing `usize` subtraction modelled
by `checkedSub` and the division/remainder by a possibly-zero `width`
guarded (both panic in Rust); the `unreachable!()` arm is also an error. -/
def IterOverhang.count_in_rect_from_0 (st : IterOverhang α) (t : ℕ) : Option ℕ :=
  if t ≤ st.offset_y * st.width + st.offset_x then some 0
  else
    (checkedSub (st.offset_y + st.iter_height) 1).bind fun last_row =>
    (checkedSub (last_row * st.width + st.offset_x + st.iter_width) 1).bind fun last_index =>
    if last_index < t then some (st.iter_width * st.iter_height)
    else if st.width = 0 then none
    else
      let to_x := t % st.width
      let to_y := t / st.width
      (checkedSub (st.offset_x + st.iter_width) 1).bind fun edge =>
      match decide (to_x ≤ st.offset_x), decide (edge < to_x) with
      | true, false => (checkedSub to_y st.offset_y).map fun rows => rows * st.iter_width
      | false, true => (checkedSub to_y st.offset_y).map fun rows => (rows + 1) * st.iter_width
      | false, false =>
        (checkedSub to_y st.offset_y).bind fun rows =>
          checkedSub (rows * st.iter_width + to_x) st.offset_x
      | true, true => none

/-- `IterOverhang::count_in_rect` (src/image_ref/iter.rs lines 327–329):
`count_in_rect_from_0(range.end) - count_in_rect_from_0(range.start)`. -/
def IterOverhang.count_in_rect (st : IterOverhang α) (s e : ℕ) : Option ℕ :=
  (st.count_in_rect_from_0 e).bind fun ce =>
  (st.count_in_rect_from_0 s).bind fun cs =>
  checkedSub ce cs

/-- `Producer::split_at` for `IterOverhang` (src/image_ref/iter.rs lines
359–395): compute the number of present positions in the left part via the
closed-form counter, split the inner producer there, and split the range. -/
def IterOverhang.split_at (st : IterOverhang α) (index : ℕ) : Option (IterOverhang α × IterOverhang α) :=
  let index := index + st.rangeStart
  (st.count_in_rect st.rangeStart index).map fun iter_split_index =>
    ({ st with iter := st.iter.take iter_split_index, rangeEnd := index },
     { st with iter := st.iter.drop iter_split_index, rangeStart := index })

/-- Helper for `IterOverhang.toList`: consume `fuel` outer positions
starting at `s` from the inner item list `inner`. -/
def ovListGo (iter_width iter_height offset_x offset_y width : ℕ) :
    List α → ℕ → ℕ → List (Option α)
  | _, _, 0 => []
  | inner, s, n + 1 =>
    if inValid iter_width iter_height offset_x offset_y width s then
      inner.head? :: ovListGo iter_width iter_height offset_x offset_y width inner.tail (s + 1) n
    else
      none :: ovListGo iter_width iter_height offset_x offset_y width inner (s + 1) n

/-- The sequence of items produced by consuming an `IterOverhang` front to
back. -/
def IterOverhang.toList (st : IterOverhang α) : List (Option α) :=
  ovListGo st.iter_width st.iter_height st.offset_x st.offset_y st.width
    st.iter st.rangeStart (st.rangeEnd - st.rangeStart)

/-- Number of outer indices in `[s, s+n)` whose row-major position lies in
the valid sub-rectangle. -/
def presentCount (vw vh ox oy w s n : ℕ) : ℕ :=
  (List.range' s n).countP fun i => decide (inValid vw vh ox oy w i)

/-- Number of outer indices in `[0, t)` whose row-major position lies in the
valid sub-rectangle. -/
def countFrom0 (vw vh ox oy w t : ℕ) : ℕ :=
  (List.range t).countP fun i => decide (inValid vw vh ox oy w i)

/-- Brute-force count of present positions of an `IterOverhang` in the outer
index range `[a, b)` (the specification-side counter). -/
def IterOverhang.bruteCount (st : IterOverhang α) (a b : ℕ) : ℕ :=
  presentCount st.iter_width st.iter_height st.offset_x st.offset_y st.width a (b - a)

/-- The inner `IterOverhang` built by `ImageRefOverhang::pix_iter`
(src/image_ref.rs lines 508–542): wraps the inner view's `Iter` (modelled by
its item list) with the valid sub-rectangle's geometry and placement. -/
def ImageRefOverhang.pix_iter_inner (o : ImageRefOverhang α) : IterOverhang α :=
  IterOverhang.new o.valid_ref.pix_iter_inner.toList
    o.valid_ref.roi_width o.valid_ref.roi_height
    o.valid_offset_x o.valid_offset_y o.width o.height

/-- The iterator states over a view `v` reachable from `pix_iter` /
`pix_iter_serialized` by any sequence of `next`, `next_back` and (either
half of) `split_at k` with `k ≤ len`. -/
inductive IterReach (v : ImageRef α) : Iter α → Prop where
  | init : IterReach v v.pix_iter_inner
  | init_serialized : IterReach v v.pix_iter_serialized_inner
  | step_next (it : Iter α) (a : α) (it' : Iter α) :
      IterReach v it → it.next = some (a, it') → IterReach v it'
  | step_next_back (it : Iter α) (a : α) (it' : Iter α) :
      IterReach v it → it.next_back = some (a, it') → IterReach v it'
  | step_split_left (it : Iter α) (k : ℕ) :
      IterReach v it → k ≤ it.len → IterReach v (it.split_at k).1
  | step_split_right (it : Iter α) (k : ℕ) :
      IterReach v it → k ≤ it.len → IterReach v (it.split_at k).2

/-! ## General lemmas -/

/-- Unfolding lemma for `inValid`. -/
theorem inValid_def (vw vh ox oy w i : ℕ) :
    inValid vw vh ox oy w i ↔
      (ox ≤ i % w ∧ i % w < ox + vw ∧ oy ≤ i / w ∧ i / w < oy + vh) :=
  Iff.rfl

/-- `Iter.toList` is exactly what repeated `Iter.next` produces. -/
theorem iter_toList_eq_next (it : Iter α) :
    it.toList = match it.next with
      | none => []
      | some (a, it') => a :: it'.toList := by
  unfold Iter.toList Iter.next
  by_cases h : it.rangeEnd ≤ it.rangeStart
  · simp [h, Nat.sub_eq_zero_of_le h]
  · rw [if_neg h]
    have h1 : it.rangeEnd - it.rangeStart = (it.rangeEnd - (it.rangeStart + 1)) + 1 := by omega
    rw [h1, List.range'_succ]
    simp only [List.map_cons]
    rfl

/-- `IterOverhang.toList` is exactly what repeated `IterOverhang.next`
produces. -/
theorem iterOverhang_toList_eq_next (st : IterOverhang α) :
    st.toList = match st.next with
      | none => []
      | some (a, st') => a :: st'.toList := by
  unfold IterOverhang.toList IterOverhang.next
  by_cases h : st.rangeEnd ≤ st.rangeStart
  · rw [Nat.sub_eq_zero_of_le h]
    simp [h, ovListGo]
  · rw [if_neg h]
    have h1 : st.rangeEnd - st.rangeStart = (st.rangeEnd - (st.rangeStart + 1)) + 1 := by omega
    rw [h1]
    by_cases hp : st.present st.rangeStart
    · rw [if_pos hp]
      simp only [ovListGo, if_pos (show inValid _ _ _ _ _ st.rangeStart from hp)]
    · rw [if_neg hp]
      simp only [ovListGo, if_neg (show ¬ inValid _ _ _ _ _ st.rangeStart from hp)]

/-- Counting from `0` splits at any intermediate point. -/
theorem countFrom0_add (vw vh ox oy w a n : ℕ) :
    countFrom0 vw vh ox oy w (a + n)
      = countFrom0 vw vh ox oy w a + presentCount vw vh ox oy w a n := by
  unfold countFrom0 presentCount
  rw [List.range_eq_range', List.range_eq_range', Nat.add_comm a n,
    ← List.range'_append 0 a n 1, List.countP_append]
  norm_num

/-- The brute-force count from `0` equals a sum of per-row clipped counts. -/
theorem countFrom0_eq_sum (vw vh ox oy w : ℕ) (hw : 0 < w) (hfit : ox + vw ≤ w) (t : ℕ) :
    countFrom0 vw vh ox oy w t
      = ∑ j ∈ Finset.range vh, min vw (t - ((oy + j) * w + ox)) := by
  induction t with
  | zero => simp [countFrom0]
  | succ t IH =>
    have hstep : ∀ c : ℕ,
        min vw (t + 1 - c) = min vw (t - c) + (if c ≤ t ∧ t < c + vw then 1 else 0) := by
      intro c; split_ifs with h <;> omega
    have hdelta :
        (∑ j ∈ Finset.range vh,
            if (oy + j) * w + ox ≤ t ∧ t < (oy + j) * w + ox + vw then 1 else 0)
          = if inValid vw vh ox oy w t then 1 else 0 := by
      by_cases hp : inValid vw vh ox oy w t
      · rw [if_pos hp]
        obtain ⟨h1, h2, h3, h4⟩ := (inValid_def vw vh ox oy w t).1 hp
        have hdm : t / w * w + t % w = t := Nat.div_add_mod' t w
        have hmem : t / w - oy ∈ Finset.range vh := Finset.mem_range.2 (by omega)
        have hside : ∀ b ∈ Finset.range vh, b ≠ t / w - oy →
            (if (oy + b) * w + ox ≤ t ∧ t < (oy + b) * w + ox + vw then 1 else 0) = 0 := by
          intro b hb hne
          rw [if_neg]
          rintro ⟨hc1, hc2⟩
          apply hne
          have hdiv : t / w = oy + b := by
            apply Nat.div_eq_of_lt_le
            · omega
            · have hsm : (oy + b + 1) * w = (oy + b) * w + w := Nat.succ_mul _ _
              omega
          omega
        rw [Finset.sum_eq_single_of_mem _ hmem hside]
        have hq : oy + (t / w - oy) = t / w := by omega
        rw [hq, if_pos (by constructor <;> omega)]
      · rw [if_neg hp]
        apply Finset.sum_eq_zero
        intro j hj
        rw [if_neg]
        rintro ⟨hc1, hc2⟩
        apply hp
        have hj' := Finset.mem_range.1 hj
        have hdiv : t / w = oy + j := by
          apply Nat.div_eq_of_lt_le
          · omega
          · have hsm : (oy + j + 1) * w = (oy + j) * w + w := Nat.succ_mul _ _
            omega
        have hdm : t / w * w + t % w = t := Nat.div_add_mod' t w
        rw [hdiv] at hdm
        rw [inValid_def, hdiv]
        refine ⟨by omega, by omega, by omega, by omega⟩
    calc countFrom0 vw vh ox oy w (t + 1)
        = countFrom0 vw vh ox oy w t + (if inValid vw vh ox oy w t then 1 else 0) := by
          unfold countFrom0
          rw [List.range_succ, List.countP_append]
          simp [List.countP_cons]
      _ = (∑ j ∈ Finset.range vh, min vw (t - ((oy + j) * w + ox)))
            + (if inValid vw vh ox oy w t then 1 else 0) := by rw [IH]
      _ = ∑ j ∈ Finset.range vh, min vw (t + 1 - ((oy + j) * w + ox)) := by
          rw [← hdelta, ← Finset.sum_add_distrib]
          exact Finset.sum_congr rfl fun j _ => (hstep _).symm

/-- Evaluation of the per-row sum when the end point lies strictly inside the
rows spanned by the valid rectangle. -/
theorem sum_eval (vw ox oy w : ℕ) (hfit : ox + vw ≤ w) (vh q r : ℕ)
    (hq1 : oy ≤ q) (hq2 : q < oy + vh) (hr : r < w) :
    ∑ j ∈ Finset.range vh, min vw (q * w + r - ((oy + j) * w + ox))
      = (q - oy) * vw + min vw (r - ox) := by
  have hj0 : q - oy + 1 ≤ vh := by omega
  rw [Finset.range_eq_Ico, ← Finset.sum_Ico_consecutive _ (Nat.zero_le (q - oy + 1)) hj0,
    Finset.sum_Ico_succ_top (Nat.zero_le (q - oy))]
  have hfull : ∀ j ∈ Finset.Ico 0 (q - oy),
      min vw (q * w + r - ((oy + j) * w + ox)) = vw := by
    intro j hj
    have hj' := (Finset.mem_Ico.1 hj).2
    have h1 : (oy + j + 1) * w ≤ q * w := Nat.mul_le_mul_right _ (by omega)
    have h2 : (oy + j + 1) * w = (oy + j) * w + w := Nat.succ_mul _ _
    omega
  have hzero : ∀ j ∈ Finset.Ico (q - oy + 1) vh,
      min vw (q * w + r - ((oy + j) * w + ox)) = 0 := by
    intro j hj
    have hj' := (Finset.mem_Ico.1 hj).1
    have h1 : (q + 1) * w ≤ (oy + j) * w := Nat.mul_le_mul_right _ (by omega)
    have h2 : (q + 1) * w = q * w + w := Nat.succ_mul _ _
    omega
  rw [Finset.sum_congr rfl hfull, Finset.sum_eq_zero hzero, Finset.sum_const, Nat.card_Ico,
    smul_eq_mul]
  have hmid : oy + (q - oy) = q := by omega
  have h3 : q * w + r - ((oy + (q - oy)) * w + ox) = r - ox := by
    rw [hmid]; omega
  rw [h3]
  simp

/-- The closed-form counter `count_in_rect_from_0` computes the brute-force
count whenever the valid sub-rectangle is non-empty and fits in a row. -/
theorem count_in_rect_from_0_eq (st : IterOverhang α) (hvw : 1 ≤ st.iter_width)
    (hvh : 1 ≤ st.iter_height) (hfit : st.offset_x + st.iter_width ≤ st.width) (t : ℕ) :
    st.count_in_rect_from_0 t
      = some (countFrom0 st.iter_width st.iter_height st.offset_x st.offset_y st.width t) := by
  obtain ⟨iter, vw, vh, ox, oy, w, h, s, e⟩ := st
  simp only at hvw hvh hfit
  unfold IterOverhang.count_in_rect_from_0
  dsimp only
  have hw : 0 < w := by omega
  by_cases hb1 : t ≤ oy * w + ox
  · rw [if_pos hb1]
    congr 1
    symm
    rw [countFrom0_eq_sum vw vh ox oy w hw hfit]
    apply Finset.sum_eq_zero
    intro j hj
    have h1 : oy * w ≤ (oy + j) * w := Nat.mul_le_mul_right _ (by omega)
    omega
  · rw [if_neg hb1]
    rw [show checkedSub (oy + vh) 1 = some (oy + vh - 1) from by
      unfold checkedSub; rw [if_pos (by omega)]]
    rw [Option.some_bind]
    rw [show checkedSub ((oy + vh - 1) * w + ox + vw) 1
        = some ((oy + vh - 1) * w + ox + vw - 1) from by
      unfold checkedSub; rw [if_pos (by omega)]]
    rw [Option.some_bind]
    by_cases hb2 : (oy + vh - 1) * w + ox + vw - 1 < t
    · rw [if_pos hb2]
      congr 1
      symm
      rw [countFrom0_eq_sum vw vh ox oy w hw hfit]
      have hterm : ∀ j ∈ Finset.range vh, min vw (t - ((oy + j) * w + ox)) = vw := by
        intro j hj
        have hj' := Finset.mem_range.1 hj
        have h1 : (oy + j) * w ≤ (oy + vh - 1) * w := Nat.mul_le_mul_right _ (by omega)
        omega
      rw [Finset.sum_congr rfl hterm, Finset.sum_const, Finset.card_range, smul_eq_mul,
        Nat.mul_comm]
    · rw [if_neg hb2, if_neg (by omega : ¬ w = 0)]
      rw [show checkedSub (ox + vw) 1 = some (ox + vw - 1) from by
        unfold checkedSub; rw [if_pos (by omega)]]
      rw [Option.some_bind]
      have hdm : t / w * w + t % w = t := Nat.div_add_mod' t w
      have hrlt : t % w < w := Nat.mod_lt _ hw
      have hq1 : oy ≤ t / w := (Nat.le_div_iff_mul_le hw).2 (by omega)
      have hq2 : t / w < oy + vh := by
        rw [Nat.div_lt_iff_lt_mul hw]
        have h5 : oy + vh = (oy + vh - 1) + 1 := by omega
        have hsm : (oy + vh) * w = (oy + vh - 1) * w + w := by
          conv_lhs => rw [h5]
          exact Nat.succ_mul _ _
        omega
      have hsum := sum_eval vw ox oy w hfit vh (t / w) (t % w) hq1 hq2 hrlt
      rw [hdm] at hsum
      rw [countFrom0_eq_sum vw vh ox oy w hw hfit, hsum]
      rw [show checkedSub (t / w) oy = some (t / w - oy) from by
        unfold checkedSub; rw [if_pos hq1]]
      split
      · next hx1 hx2 =>
        replace hx1 := of_decide_eq_true hx1
        rw [Option.map_some']
        congr 1
        omega
      · next hx1 hx2 =>
        replace hx1 := of_decide_eq_false hx1
        replace hx2 := of_decide_eq_true hx2
        rw [Option.map_some']
        congr 1
        rw [Nat.succ_mul]
        omega
      · next hx1 hx2 =>
        replace hx1 := of_decide_eq_false hx1
        replace hx2 := of_decide_eq_false hx2
        rw [Option.some_bind]
        rw [show checkedSub ((t / w - oy) * vw + t % w) ox
            = some ((t / w - oy) * vw + t % w - ox) from by
          unfold checkedSub; rw [if_pos (by omega)]]
        congr 1
        omega
      · next hx1 hx2 =>
        replace hx1 := of_decide_eq_true hx1
        replace hx2 := of_decide_eq_true hx2
        omega

/-- `count_in_rect` computes the brute-force present-position count over
`[a, b)` whenever the valid sub-rectangle is non-empty and fits in a row. -/
theorem count_in_rect_eq (st : IterOverhang α) (hvw : 1 ≤ st.iter_width)
    (hvh : 1 ≤ st.iter_height) (hfit : st.offset_x + st.iter_width ≤ st.width)
    (a b : ℕ) (hab : a ≤ b) :
    st.count_in_rect a b = some (st.bruteCount a b) := by
  unfold IterOverhang.count_in_rect
  rw [count_in_rect_from_0_eq st hvw hvh hfit, count_in_rect_from_0_eq st hvw hvh hfit,
    Option.some_bind, Option.some_bind]
  have hsplit : countFrom0 st.iter_width st.iter_height st.offset_x st.offset_y st.width b
      = countFrom0 st.iter_width st.iter_height st.offset_x st.offset_y st.width a
        + st.bruteCount a b := by
    have h1 : b = a + (b - a) := by omega
    conv_lhs => rw [h1]
    rw [countFrom0_add]
    rfl
  rw [hsplit]
  unfold checkedSub
  rw [if_pos (by omega)]
  congr 1
  omega

theorem take_succ_head? (l : List α) (n : ℕ) : (l.take (n + 1)).head? = l.head? := by
  cases l <;> simp

theorem take_succ_tail (l : List α) (n : ℕ) : (l.take (n + 1)).tail = l.tail.take n := by
  cases l <;> simp

theorem drop_succ_tail (l : List α) (n : ℕ) : l.drop (n + 1) = l.tail.drop n := by
  cases l <;> simp

/-- `presentCount` over one more position, peeled at the front. -/
theorem presentCount_succ (vw vh ox oy w s k : ℕ) :
    presentCount vw vh ox oy w s (k + 1)
      = presentCount vw vh ox oy w (s + 1) k + (if inValid vw vh ox oy w s then 1 else 0) := by
  unfold presentCount
  rw [List.range'_succ, List.countP_cons]
  simp

/-- Splitting the overhang traversal at an intermediate point: consuming the
first `presentCount` inner items over the left positions and the rest over
the right positions reproduces the whole traversal. -/
theorem ovListGo_split (vw vh ox oy w : ℕ) :
    ∀ (k n : ℕ) (inner : List α) (s : ℕ),
      ovListGo vw vh ox oy w inner s (k + n)
        = ovListGo vw vh ox oy w (inner.take (presentCount vw vh ox oy w s k)) s k
          ++ ovListGo vw vh ox oy w (inner.drop (presentCount vw vh ox oy w s k)) (s + k) n := by
  intro k
  induction k with
  | zero =>
    intro n inner s
    simp [ovListGo, presentCount]
  | succ k IH =>
    intro n inner s
    rw [presentCount_succ]
    by_cases hp : inValid vw vh ox oy w s
    · rw [if_pos hp]
      rw [show k + 1 + n = (k + n) + 1 from by omega]
      simp only [ovListGo, if_pos hp]
      rw [IH n inner.tail (s + 1)]
      rw [take_succ_head?, take_succ_tail, drop_succ_tail]
      rw [show s + 1 + k = s + (k + 1) from by omega]
      simp
    · rw [if_neg hp, Nat.add_zero]
      rw [show k + 1 + n = (k + n) + 1 from by omega]
      simp only [ovListGo, if_neg hp]
      rw [IH n inner (s + 1)]
      rw [show s + 1 + k = s + (k + 1) from by omega]
      simp

/-- When the valid sub-rectangle has height `0`, no outer position is
present: the traversal yields only absent items. -/
theorem ovListGo_height_zero (vw ox oy w : ℕ) :
    ∀ (n : ℕ) (inner : List α) (s : ℕ),
      ovListGo vw 0 ox oy w inner s n = List.replicate n none := by
  intro n
  induction n with
  | zero => intro inner s; rfl
  | succ n IH =>
    intro inner s
    unfold ovListGo
    rw [if_neg, IH, List.replicate_succ]
    rintro ⟨_, _, h3, h4⟩
    omega

/-! ## Claim C1 -/

/-- C1 (corrected): for an overhang iterator over an outer `width × height`
rectangle whose valid sub-rectangle sits at `(offset_x, offset_y)` with size
`iter_width × iter_height` (`offset_x + iter_width ≤ width`,
`offset_y + iter_height ≤ height`), **provided the valid sub-rectangle is
non-empty** (`1 ≤ iter_width`, `1 ≤ iter_height`), for every sub-range
`[a, b) ⊆ [0, width·height)` the closed-form counter `count_in_rect`
computes (without any arithmetic error) the number of indices `i ∈ [a, b)`
whose row-major position `(i % width, i / width)` lies inside the valid
sub-rectangle. -/
theorem c1_count_in_rect_correct (st : IterOverhang α)
    (hvw : 1 ≤ st.iter_width) (hvh : 1 ≤ st.iter_height)
    (hx : st.offset_x + st.iter_width ≤ st.width)
    (hy : st.offset_y + st.iter_height ≤ st.height)
    (a b : ℕ) (hab : a ≤ b) (hb : b ≤ st.width * st.height) :
    st.count_in_rect a b = some (st.bruteCount a b) :=
  count_in_rect_eq st hvw hvh hx a b hab

/-- C1 counterexample to the claim as stated: for the overhang iterator of
the overhang view of a 1×1 parent requested at `(1, 1, 1, 1)` (valid
sub-rectangle empty: `iter_width = iter_height = 0`, offsets `0`), the
closed-form counter over the sub-range `[0, 1) ⊆ [0, 1·1)` hits an
underflowing `usize` subtraction (`offset_y + iter_height - 1`) and errors
(panics in a debug build) instead of returning the brute-force count `0`. -/
theorem c1_counterexample :
    ((((⟨1, fun i => i, 0, 0, 1, 1⟩ : ImageRef ℕ).view_overhang 1 1 1 1).pix_iter_inner).count_in_rect 0 1
        = none)
    ∧ ((((⟨1, fun i => i, 0, 0, 1, 1⟩ : ImageRef ℕ).view_overhang 1 1 1 1).pix_iter_inner).bruteCount 0 1
        = 0) :=
  ⟨rfl, rfl⟩

/-- Witness for `c1_count_in_rect_correct`: a 4×4 parent with overhang
request `(-1, -1, 4, 4)` gives a 3×3 valid window at offsets `(1, 1)` in a
4×4 outer rectangle; the counter agrees with brute force on `[3, 9)`. -/
theorem c1_witness :
    ((((⟨4, fun i => i, 0, 0, 4, 4⟩ : ImageRef ℕ).view_overhang (-1) (-1) 4 4).pix_iter_inner).count_in_rect 3 9
        = some ((((⟨4, fun i => i, 0, 0, 4, 4⟩ : ImageRef ℕ).view_overhang (-1) (-1) 4 4).pix_iter_inner).bruteCount 3 9)) :=
  c1_count_in_rect_correct _ (by decide) (by decide) (by decide) (by decide) 3 9
    (by decide) (by decide)

/-! ## Claim C2 -/

/-- C2 (corrected): splitting preserves the traversal.  For every view
iterator state and every `k ≤ len`, consuming the left half front to back
and then the right half reproduces the unsplit traversal; the same holds
for every overhang iterator state **whose valid sub-rectangle is non-empty
and row-fitting** (`1 ≤ iter_width`, `1 ≤ iter_height`,
`offset_x + iter_width ≤ width`), where `split_at` also succeeds without an
arithmetic error.  Both statements quantify over all reachable states, so
the law holds recursively at arbitrary split depth. -/
theorem c2_split_at_concat :
    (∀ (it : Iter α) (k : ℕ), k ≤ it.len →
        (it.split_at k).1.toList ++ (it.split_at k).2.toList = it.toList)
    ∧ (∀ (st : IterOverhang α) (k : ℕ), k ≤ st.rangeEnd - st.rangeStart →
        1 ≤ st.iter_width → 1 ≤ st.iter_height →
        st.offset_x + st.iter_width ≤ st.width →
        ∃ l r, st.split_at k = some (l, r) ∧ l.toList ++ r.toList = st.toList) := by
  constructor
  · intro it k hk
    obtain ⟨base, bw, ox, w, s, e⟩ := it
    simp only [Iter.len] at hk
    simp only [Iter.split_at, Iter.toList, Iter.addr]
    rw [show s + k - s = k from by omega, ← List.map_append]
    congr 1
    have h := List.range'_append s k (e - (s + k)) 1
    rw [Nat.one_mul] at h
    rw [h, show e - (s + k) + k = e - s from by omega]
  · intro st k hk hvw hvh hfit
    obtain ⟨inner, vw, vh, ox, oy, w, h, s, e⟩ := st
    simp only at hk hvw hvh hfit
    have hcnt := count_in_rect_eq ⟨inner, vw, vh, ox, oy, w, h, s, e⟩ hvw hvh hfit s (k + s)
      (by omega)
    unfold IterOverhang.bruteCount at hcnt
    simp only at hcnt
    rw [show k + s - s = k from by omega] at hcnt
    refine ⟨⟨inner.take (presentCount vw vh ox oy w s k), vw, vh, ox, oy, w, h, s, k + s⟩,
      ⟨inner.drop (presentCount vw vh ox oy w s k), vw, vh, ox, oy, w, h, k + s, e⟩, ?_, ?_⟩
    · unfold IterOverhang.split_at
      dsimp only
      rw [hcnt, Option.map_some']
    · unfold IterOverhang.toList
      dsimp only
      rw [show k + s - s = k from by omega, show e - s = k + (e - (k + s)) from by omega]
      rw [ovListGo_split vw vh ox oy w k (e - (k + s)) inner s]
      rw [show s + k = k + s from by omega]

/-- C2 counterexample to the claim as stated: for the overhang iterator of a
non-intersecting overhang view (1×1 parent, request `(1, 1, 1, 1)`, so the
valid sub-rectangle is empty) with `len = 1` remaining elements,
`split_at 1` does not yield two iterators at all: the closed-form counter it
relies on hits an underflowing subtraction (a panic in a debug build). -/
theorem c2_counterexample :
    (((⟨1, fun i => i, 0, 0, 1, 1⟩ : ImageRef ℕ).view_overhang 1 1 1 1).pix_iter_inner).split_at 1
      = none :=
  rfl

/-- Witness for `c2_split_at_concat`: a plain view iterator state split at
`3`, and the overhang iterator of a 4×4 parent with request `(-1, -1, 4, 4)`
split at `5`. -/
theorem c2_witness :
    (((⟨fun i => i, 3, 1, 2, 2, 8⟩ : Iter ℕ).split_at 3).1.toList
        ++ ((⟨fun i => i, 3, 1, 2, 2, 8⟩ : Iter ℕ).split_at 3).2.toList
      = (⟨fun i => i, 3, 1, 2, 2, 8⟩ : Iter ℕ).toList)
    ∧ (∃ l r,
        ((((⟨4, fun i => i, 0, 0, 4, 4⟩ : ImageRef ℕ).view_overhang (-1) (-1) 4 4).pix_iter_inner).split_at 5
            = some (l, r))
        ∧ l.toList ++ r.toList
            = (((⟨4, fun i => i, 0, 0, 4, 4⟩ : ImageRef ℕ).view_overhang (-1) (-1) 4 4).pix_iter_inner).toList) :=
  ⟨c2_split_at_concat.1 _ 3 (by decide),
    c2_split_at_concat.2 _ 5 (by decide) (by decide) (by decide) (by decide)⟩

/-! ## Claim C9 -/

/-- C9 (corrected): if the overhang's valid sub-rectangle is empty in the
specific way produced by a request that misses the parent past its bottom
edge — `iter_height = 0` with `offset_y = 0` — then `split_at k` with
`range.start + k > offset_y·width + offset_x` evaluates
`offset_y + iter_height - 1` in `count_in_rect_from_0`, whose natural
subtraction underflows (a panic in a debug build): the error branch of the
total embedding is reachable.  Plain sequential iteration of the same
iterator nevertheless yields only absent items, without error. -/
theorem c9_split_error_reachable (st : IterOverhang α)
    (hoy : st.offset_y = 0) (hvh : st.iter_height = 0) (k : ℕ)
    (hk : st.offset_y * st.width + st.offset_x < st.rangeStart + k) :
    st.count_in_rect_from_0 (k + st.rangeStart) = none
    ∧ st.split_at k = none
    ∧ st.toList = List.replicate (st.rangeEnd - st.rangeStart) none := by
  have h0 : st.count_in_rect_from_0 (k + st.rangeStart) = none := by
    unfold IterOverhang.count_in_rect_from_0
    rw [if_neg (by omega)]
    rw [hoy, hvh]
    rw [show checkedSub (0 + 0) 1 = none from rfl]
    rfl
  refine ⟨h0, ?_, ?_⟩
  · unfold IterOverhang.split_at IterOverhang.count_in_rect
    dsimp only
    rw [h0]
    rfl
  · unfold IterOverhang.toList
    rw [hvh]
    exact ovListGo_height_zero _ _ _ _ _ _ _

/-- C9 counterexample to the claim as stated: the overhang view of a 1×2
parent requested at `(-3, 0, 3, 2)` does not intersect the parent
(`iter_width = 0`), and splitting its iterator at `k = 4` satisfies
`range.start + k = 4 > offset_y·width + offset_x = 3`, yet no subtraction
underflows: `count_in_rect_from_0` returns `0` and `split_at` succeeds
(the claimed panic does not occur at this input). -/
theorem c9_counterexample :
    ((((⟨1, fun i => i, 0, 0, 1, 2⟩ : ImageRef ℕ).view_overhang (-3) 0 3 2).pix_iter_inner).iter_width
        = 0)
    ∧ ((((⟨1, fun i => i, 0, 0, 1, 2⟩ : ImageRef ℕ).view_overhang (-3) 0 3 2).pix_iter_inner).count_in_rect_from_0 (4 + 0)
        = some 0)
    ∧ (((((⟨1, fun i => i, 0, 0, 1, 2⟩ : ImageRef ℕ).view_overhang (-3) 0 3 2).pix_iter_inner).split_at 4).isSome
        = true) :=
  ⟨rfl, rfl, rfl⟩

/-- Witness for `c9_split_error_reachable`: a 1×1 parent with request
`(0, 2, 1, 1)` misses past the bottom edge (`iter_height = 0`,
`offset_y = 0`); splitting at `k = 1` errors while sequential iteration
yields one absent item. -/
theorem c9_witness :
    ((((⟨1, fun i => i, 0, 0, 1, 1⟩ : ImageRef ℕ).view_overhang 0 2 1 1).pix_iter_inner).count_in_rect_from_0 (1 + 0)
        = none)
    ∧ ((((⟨1, fun i => i, 0, 0, 1, 1⟩ : ImageRef ℕ).view_overhang 0 2 1 1).pix_iter_inner).split_at 1
        = none)
    ∧ ((((⟨1, fun i => i, 0, 0, 1, 1⟩ : ImageRef ℕ).view_overhang 0 2 1 1).pix_iter_inner).toList
        = List.replicate
            ((((⟨1, fun i => i, 0, 0, 1, 1⟩ : ImageRef ℕ).view_overhang 0 2 1 1).pix_iter_inner).rangeEnd
              - (((⟨1, fun i => i, 0, 0, 1, 1⟩ : ImageRef ℕ).view_overhang 0 2 1 1).pix_iter_inner).rangeStart)
            none) :=
  c9_split_error_reachable _ (by decide) (by decide) 1 (by decide)

/-! ## Claim C4 -/

/-- C4: for a view (`ImageRef`) and for a buffer (`PhysicalImage`), `view`
returns a present sub-view exactly when `x + w ≤ width` and
`y + h ≤ height`, and the cells of a present sub-view coincide with direct
parent access at the translated coordinates. -/
theorem c4_view_correct :
    (∀ (p : ImageRef α) (x y w h : ℕ),
        ((p.view x y w h).isSome ↔ (x + w ≤ p.width ∧ y + h ≤ p.height))
        ∧ ∀ v, p.view x y w h = some v → ∀ a b, a < w → b < h →
            v.get a b = p.get (x + a) (y + b))
    ∧ (∀ (p : PhysicalImage α) (x y w h : ℕ),
        ((p.view x y w h).isSome ↔ (x + w ≤ p.width ∧ y + h ≤ p.height))
        ∧ ∀ v, p.view x y w h = some v → ∀ a b, a < w → b < h →
            v.get a b = p.get (x + a) (y + b)) := by
  constructor
  · intro p x y w h
    constructor
    · unfold ImageRef.view ImageRef.width ImageRef.height
      split_ifs with hv
      · simpa using hv
      · unfold ImageRef.view_is_valid at hv
        simpa using hv
    · intro v hv a b ha hb
      unfold ImageRef.view at hv
      split_ifs at hv with hvv
      · unfold ImageRef.view_is_valid at hvv
        obtain rfl := Option.some.inj hv
        unfold ImageRef.view_unchecked ImageRef.get ImageRef.is_valid ImageRef.valid_rect
          Rectangle.contains ImageRef.get_unchecked
        dsimp only
        rw [if_pos (by omega), if_pos (by omega)]
        have hidx : (y + p.roi_y + b) * p.base_width + (x + p.roi_x) + a
            = (p.roi_y + (y + b)) * p.base_width + p.roi_x + (x + a) := by ring
        rw [hidx]
  · intro p x y w h
    constructor
    · unfold PhysicalImage.view
      split_ifs with hv
      · simpa using hv
      · unfold PhysicalImage.view_is_valid at hv
        simpa using hv
    · intro v hv a b ha hb
      unfold PhysicalImage.view at hv
      split_ifs at hv with hvv
      · unfold PhysicalImage.view_is_valid at hvv
        obtain rfl := Option.some.inj hv
        unfold PhysicalImage.view_unchecked ImageRef.get ImageRef.is_valid ImageRef.valid_rect
          Rectangle.contains ImageRef.get_unchecked PhysicalImage.get PhysicalImage.is_valid
          PhysicalImage.get_unchecked
        dsimp only
        rw [if_pos (by omega), if_pos (by omega)]
        have hidx : (y + b) * p.width + x + a = p.width * (y + b) + (x + a) := by ring
        rw [hidx]

/-- Witness for `c4_view_correct`: a 3×3 view of a 4-wide buffer, sub-view
at `(1, 1, 2, 2)`, cell `(0, 1)`. -/
theorem c4_witness :
    (((⟨4, fun i => i, 0, 0, 3, 3⟩ : ImageRef ℕ).view 1 1 2 2).isSome
      ↔ (1 + 2 ≤ (⟨4, fun i => i, 0, 0, 3, 3⟩ : ImageRef ℕ).width
          ∧ 1 + 2 ≤ (⟨4, fun i => i, 0, 0, 3, 3⟩ : ImageRef ℕ).height))
    ∧ (((⟨4, fun i => i, 0, 0, 3, 3⟩ : ImageRef ℕ).view_unchecked 1 1 2 2).get 0 1
        = (⟨4, fun i => i, 0, 0, 3, 3⟩ : ImageRef ℕ).get (1 + 0) (1 + 1)) :=
  ⟨(c4_view_correct.1 ⟨4, fun i => i, 0, 0, 3, 3⟩ 1 1 2 2).1,
    (c4_view_correct.1 ⟨4, fun i => i, 0, 0, 3, 3⟩ 1 1 2 2).2 _ rfl 0 1
      (by decide) (by decide)⟩

/-! ## Claim C5 -/

/-- C5: for an overhang view `o` and `(x, y)` in its own frame, `o.get x y`
is present exactly when `(x, y)` lies in the translated valid rectangle,
in which case it delegates to the inner view at
`(x − offset_x, y − offset_y)`; and `valid_rect` is the inner view's
rectangle translated by the offsets. -/
theorem c5_overhang_get (o : ImageRefOverhang α) (x y : ℕ)
    (hx : x < o.width) (hy : y < o.height) :
    ((o.get x y).isSome ↔
      (o.valid_offset_x ≤ x ∧ x < o.valid_offset_x + o.valid_ref.width
        ∧ o.valid_offset_y ≤ y ∧ y < o.valid_offset_y + o.valid_ref.height))
    ∧ (o.valid_offset_x ≤ x → x < o.valid_offset_x + o.valid_ref.width →
        o.valid_offset_y ≤ y → y < o.valid_offset_y + o.valid_ref.height →
        o.get x y = o.valid_ref.get (x - o.valid_offset_x) (y - o.valid_offset_y))
    ∧ o.valid_rect
        = ⟨o.valid_ref.valid_rect.x + o.valid_offset_x,
            o.valid_ref.valid_rect.y + o.valid_offset_y,
            o.valid_ref.valid_rect.w, o.valid_ref.valid_rect.h⟩ := by
  have hvalid : o.is_valid x y ↔
      (o.valid_offset_x ≤ x ∧ x < o.valid_offset_x + o.valid_ref.width
        ∧ o.valid_offset_y ≤ y ∧ y < o.valid_offset_y + o.valid_ref.height) := Iff.rfl
  refine ⟨?_, ?_, ?_⟩
  · unfold ImageRefOverhang.get
    split_ifs with hc
    · exact iff_of_true rfl (hvalid.1 hc)
    · exact iff_of_false (by simp) fun hcond => hc (hvalid.2 hcond)
  · intro h1 h2 h3 h4
    have hvr : o.valid_ref.is_valid (x - o.valid_offset_x) (y - o.valid_offset_y) := by
      have hww : o.valid_ref.width = o.valid_ref.roi_width := rfl
      have hhh : o.valid_ref.height = o.valid_ref.roi_height := rfl
      simp only [ImageRef.is_valid, ImageRef.valid_rect, Rectangle.contains]
      omega
    unfold ImageRefOverhang.get ImageRefOverhang.get_unchecked ImageRef.get
    rw [if_pos (hvalid.2 ⟨h1, h2, h3, h4⟩), if_pos hvr]
  · unfold ImageRefOverhang.valid_rect ImageRef.valid_rect
    simp

/-- Witness for `c5_overhang_get`: a 2×2 parent with request
`(-1, -1, 2, 2)` (inner 1×1 window at offsets `(1, 1)`), present cell
`(1, 1)` delegating to the inner view at `(0, 0)`. -/
theorem c5_witness :
    (((⟨2, fun i => i, 0, 0, 2, 2⟩ : ImageRef ℕ).view_overhang (-1) (-1) 2 2).get 1 1
      = (((⟨2, fun i => i, 0, 0, 2, 2⟩ : ImageRef ℕ).view_overhang (-1) (-1) 2 2)).valid_ref.get
          (1 - (((⟨2, fun i => i, 0, 0, 2, 2⟩ : ImageRef ℕ).view_overhang (-1) (-1) 2 2)).valid_offset_x)
          (1 - (((⟨2, fun i => i, 0, 0, 2, 2⟩ : ImageRef ℕ).view_overhang (-1) (-1) 2 2)).valid_offset_y)) :=
  (c5_overhang_get (((⟨2, fun i => i, 0, 0, 2, 2⟩ : ImageRef ℕ).view_overhang (-1) (-1) 2 2)) 1 1
      (by decide) (by decide)).2.1 (by decide) (by decide) (by decide) (by decide)

/-! ## Claim C10 -/

/-- C10: an overhang view's `view` returns a present sub-view exactly when
the requested rectangle lies inside the translated valid rectangle; in
particular a request that covers any absent cell returns absent. -/
theorem c10_overhang_view (o : ImageRefOverhang α) (x y w h : ℕ) :
    ((o.view x y w h).isSome ↔
      (o.valid_offset_x ≤ x ∧ o.valid_offset_y ≤ y
        ∧ (x - o.valid_offset_x) + w ≤ o.valid_ref.width
        ∧ (y - o.valid_offset_y) + h ≤ o.valid_ref.height))
    ∧ ((∃ cx cy, x ≤ cx ∧ cx < x + w ∧ y ≤ cy ∧ cy < y + h ∧ o.get cx cy = none) →
        o.view x y w h = none) := by
  have hiff : (o.view x y w h).isSome ↔
      (o.valid_offset_x ≤ x ∧ o.valid_offset_y ≤ y
        ∧ (x - o.valid_offset_x) + w ≤ o.valid_ref.width
        ∧ (y - o.valid_offset_y) + h ≤ o.valid_ref.height) := by
    unfold ImageRefOverhang.view ImageRefOverhang.view_is_valid checkedSub ImageRef.width
      ImageRef.height
    by_cases hx : o.valid_offset_x ≤ x
    · by_cases hy : o.valid_offset_y ≤ y
      · rw [if_pos hx, if_pos hy]
        dsimp only [Option.map_some', Option.getD_some]
        split_ifs with hb
        · simp only [Option.isSome_some, true_iff]
          simp only [Bool.and_eq_true, decide_eq_true_eq] at hb
          exact ⟨hx, hy, hb.1, hb.2⟩
        · simp only [Option.isSome_none, Bool.false_eq_true, false_iff]
          rintro ⟨-, -, h3, h4⟩
          exact hb (by simp only [Bool.and_eq_true, decide_eq_true_eq]; exact ⟨h3, h4⟩)
      · rw [if_neg hy]
        simp only [Option.map_none', Option.getD_none, Bool.and_false, Bool.false_eq_true,
          if_false, Option.isSome_none, false_iff]
        rintro ⟨-, h2, -, -⟩
        exact hy h2
    · rw [if_neg hx]
      simp only [Option.map_none', Option.getD_none, Bool.false_and, Bool.false_eq_true,
        if_false, Option.isSome_none, false_iff]
      rintro ⟨h1, -, -, -⟩
      exact hx h1
  refine ⟨hiff, ?_⟩
  rintro ⟨cx, cy, h1, h2, h3, h4, habs⟩
  cases hv : o.view x y w h with
  | none => rfl
  | some v =>
    exfalso
    have hc := hiff.1 (by rw [hv]; rfl)
    have hww : o.valid_ref.width = o.valid_ref.roi_width := rfl
    have hhh : o.valid_ref.height = o.valid_ref.roi_height := rfl
    have hcontains : o.is_valid cx cy := by
      simp only [ImageRefOverhang.is_valid, ImageRefOverhang.valid_rect, Rectangle.contains]
      omega
    unfold ImageRefOverhang.get at habs
    rw [if_pos hcontains] at habs
    exact Option.noConfusion habs

/-- Witness for `c10_overhang_view`: a 2×2 parent with request
`(-1, -1, 2, 2)`; the sub-view request `(0, 0, 1, 1)` lies in the
overhang's own frame but covers the absent cell `(0, 0)`, so it is
refused. -/
theorem c10_witness :
    ((((⟨2, fun i => i, 0, 0, 2, 2⟩ : ImageRef ℕ).view_overhang (-1) (-1) 2 2).get 0 0 = none)
    ∧ (((⟨2, fun i => i, 0, 0, 2, 2⟩ : ImageRef ℕ).view_overhang (-1) (-1) 2 2).view 0 0 1 1
        = none)) :=
  ⟨rfl,
    (c10_overhang_view (((⟨2, fun i => i, 0, 0, 2, 2⟩ : ImageRef ℕ).view_overhang (-1) (-1) 2 2))
        0 0 1 1).2
      ⟨0, 0, by omega, by omega, by omega, by omega, rfl⟩⟩

/-! ## Claim C6 -/

/-- If the requested rectangle misses the parent entirely, the clamped inner
size is `0` in the missed axis. -/
theorem miss_empty_axis (pw ph : ℕ) (x y : ℤ) (w h : ℕ)
    (hmiss : x + w ≤ 0 ∨ (pw : ℤ) ≤ x ∨ y + h ≤ 0 ∨ (ph : ℤ) ≤ y) :
    clampToNat (x + w) pw - clampToNat x pw = 0
      ∨ clampToNat (y + h) ph - clampToNat y ph = 0 := by
  unfold clampToNat
  omega

/-- An overhang view whose inner view is empty reads absent everywhere. -/
theorem overhang_empty_get (o : ImageRefOverhang α)
    (hempty : o.valid_ref.roi_width = 0 ∨ o.valid_ref.roi_height = 0) (a b : ℕ) :
    o.get a b = none := by
  unfold ImageRefOverhang.get
  rw [if_neg]
  intro hc
  have hc' : o.valid_offset_x ≤ a ∧ a < o.valid_offset_x + o.valid_ref.roi_width
      ∧ o.valid_offset_y ≤ b ∧ b < o.valid_offset_y + o.valid_ref.roi_height := hc
  omega

/-- C6 (corrected): `view_overhang` (on a view and on a buffer) builds its
inner view over exactly `(valid_x, valid_y, valid_w, valid_h)` given by the
clamp formulas and sets the placement offsets `max(−x, 0)`, `max(−y, 0)`;
when the requested rectangle misses the parent entirely, `valid_w = 0` **or**
`valid_h = 0` (the inner view is empty) and every cell of the overhang reads
absent. -/
theorem c6_view_overhang_build :
    (∀ (p : ImageRef α) (x y : ℤ) (w h : ℕ),
        (p.view_overhang x y w h).valid_ref
            = p.view_unchecked (clampToNat x p.roi_width) (clampToNat y p.roi_height)
                (clampToNat (x + w) p.roi_width - clampToNat x p.roi_width)
                (clampToNat (y + h) p.roi_height - clampToNat y p.roi_height)
        ∧ (p.view_overhang x y w h).valid_offset_x = (max (-x) 0).toNat
        ∧ (p.view_overhang x y w h).valid_offset_y = (max (-y) 0).toNat
        ∧ (p.view_overhang x y w h).width = w
        ∧ (p.view_overhang x y w h).height = h
        ∧ ((x + w ≤ 0 ∨ (p.roi_width : ℤ) ≤ x ∨ y + h ≤ 0 ∨ (p.roi_height : ℤ) ≤ y) →
            ((p.view_overhang x y w h).valid_ref.roi_width = 0
              ∨ (p.view_overhang x y w h).valid_ref.roi_height = 0)
            ∧ ∀ a b, a < w → b < h → (p.view_overhang x y w h).get a b = none))
    ∧ (∀ (p : PhysicalImage α) (x y : ℤ) (w h : ℕ),
        (p.view_overhang x y w h).valid_ref
            = p.view_unchecked (clampToNat x p.width) (clampToNat y p.height)
                (clampToNat (x + w) p.width - clampToNat x p.width)
                (clampToNat (y + h) p.height - clampToNat y p.height)
        ∧ (p.view_overhang x y w h).valid_offset_x = (max (-x) 0).toNat
        ∧ (p.view_overhang x y w h).valid_offset_y = (max (-y) 0).toNat
        ∧ (p.view_overhang x y w h).width = w
        ∧ (p.view_overhang x y w h).height = h
        ∧ ((x + w ≤ 0 ∨ (p.width : ℤ) ≤ x ∨ y + h ≤ 0 ∨ (p.height : ℤ) ≤ y) →
            ((p.view_overhang x y w h).valid_ref.roi_width = 0
              ∨ (p.view_overhang x y w h).valid_ref.roi_height = 0)
            ∧ ∀ a b, a < w → b < h → (p.view_overhang x y w h).get a b = none)) := by
  constructor
  · intro p x y w h
    refine ⟨rfl, rfl, rfl, rfl, rfl, ?_⟩
    intro hmiss
    have hempty : (p.view_overhang x y w h).valid_ref.roi_width = 0
        ∨ (p.view_overhang x y w h).valid_ref.roi_height = 0 :=
      miss_empty_axis p.roi_width p.roi_height x y w h hmiss
    exact ⟨hempty, fun a b _ _ => overhang_empty_get _ hempty a b⟩
  · intro p x y w h
    refine ⟨rfl, rfl, rfl, rfl, rfl, ?_⟩
    intro hmiss
    have hempty : (p.view_overhang x y w h).valid_ref.roi_width = 0
        ∨ (p.view_overhang x y w h).valid_ref.roi_height = 0 :=
      miss_empty_axis p.width p.height x y w h hmiss
    exact ⟨hempty, fun a b _ _ => overhang_empty_get _ hempty a b⟩

/-- C6 counterexample to the claim as stated: on a 1×1 parent the request
`(1, 0, 1, 1)` misses the parent entirely (it starts at
`x = 1 ≥ width = 1`), yet only `valid_w = 0` while `valid_h = 1 ≠ 0` — the
claim's "valid_w **and** valid_h are 0" is false. -/
theorem c6_counterexample :
    (((⟨1, fun i => i, 0, 0, 1, 1⟩ : ImageRef ℕ).view_overhang 1 0 1 1).valid_ref.roi_width = 0)
    ∧ (((⟨1, fun i => i, 0, 0, 1, 1⟩ : ImageRef ℕ).view_overhang 1 0 1 1).valid_ref.roi_height
        = 1) :=
  ⟨rfl, rfl⟩

/-- Witness for `c6_view_overhang_build`: the request `(2, 0, 1, 1)` misses
a 1×1 parent entirely; the inner view is empty and the single cell of the
overhang reads absent. -/
theorem c6_witness :
    ((((⟨1, fun i => i, 0, 0, 1, 1⟩ : ImageRef ℕ).view_overhang 2 0 1 1).valid_ref.roi_width = 0
      ∨ (((⟨1, fun i => i, 0, 0, 1, 1⟩ : ImageRef ℕ).view_overhang 2 0 1 1)).valid_ref.roi_height
          = 0)
    ∧ ∀ a b, a < 1 → b < 1 →
        (((⟨1, fun i => i, 0, 0, 1, 1⟩ : ImageRef ℕ).view_overhang 2 0 1 1)).get a b = none) :=
  ((c6_view_overhang_build (α := ℕ)).1 ⟨1, fun i => i, 0, 0, 1, 1⟩ 2 0 1 1).2.2.2.2.2
    (Or.inr (Or.inl (by decide)))

/-! ## Claim C8 -/

/-- C8 (corrected): for every iterator created over a view by `pix_iter` or
`pix_iter_serialized`, and after any sequence of `next` / `next_back` /
`split_at` operations, the half-open index range `[start, end)` is contained
in `[offset, offset + width·height)` where `offset = roi_y · width` — not in
`[0, width·height)` as claimed: the range is expressed in indices shifted by
`roi_y · width`. -/
theorem c8_range_invariant (v : ImageRef α) (it : Iter α) (hreach : IterReach v it) :
    v.roi_y * v.roi_width ≤ it.rangeStart
    ∧ it.rangeStart ≤ it.rangeEnd
    ∧ it.rangeEnd ≤ v.roi_y * v.roi_width + v.roi_width * v.roi_height := by
  induction hreach with
  | init =>
    unfold ImageRef.pix_iter_inner
    dsimp only
    omega
  | init_serialized =>
    unfold ImageRef.pix_iter_serialized_inner
    dsimp only
    omega
  | step_next it a it' hr hnext IH =>
    unfold Iter.next at hnext
    split_ifs at hnext with hne
    rw [Option.some.injEq, Prod.mk.injEq] at hnext
    obtain ⟨-, rfl⟩ := hnext
    dsimp only
    omega
  | step_next_back it a it' hr hback IH =>
    unfold Iter.next_back at hback
    split_ifs at hback with hne
    rw [Option.some.injEq, Prod.mk.injEq] at hback
    obtain ⟨-, rfl⟩ := hback
    dsimp only
    omega
  | step_split_left it k hr hk IH =>
    unfold Iter.len at hk
    unfold Iter.split_at
    dsimp only
    omega
  | step_split_right it k hr hk IH =>
    unfold Iter.len at hk
    unfold Iter.split_at
    dsimp only
    omega

/-- C8 counterexample to the claim as stated: the iterator of the 1×1 view
at `(0, 1)` of a 1×2 buffer starts with the nonempty range `[1, 2)`, which
is not contained in `[0, width·height) = [0, 1)`. -/
theorem c8_counterexample :
    ((⟨1, fun i => i, 0, 1, 1, 1⟩ : ImageRef ℕ).pix_iter_inner.rangeStart = 1)
    ∧ ((⟨1, fun i => i, 0, 1, 1, 1⟩ : ImageRef ℕ).pix_iter_inner.rangeEnd = 2)
    ∧ ((⟨1, fun i => i, 0, 1, 1, 1⟩ : ImageRef ℕ).roi_width
        * (⟨1, fun i => i, 0, 1, 1, 1⟩ : ImageRef ℕ).roi_height = 1) :=
  ⟨rfl, rfl, rfl⟩

/-- Witness for `c8_range_invariant`: the freshly created iterator of the
same 1×1 view at `(0, 1)`. -/
theorem c8_witness :
    ((⟨1, fun i => i, 0, 1, 1, 1⟩ : ImageRef ℕ).roi_y
          * (⟨1, fun i => i, 0, 1, 1, 1⟩ : ImageRef ℕ).roi_width
        ≤ (⟨1, fun i => i, 0, 1, 1, 1⟩ : ImageRef ℕ).pix_iter_inner.rangeStart)
    ∧ ((⟨1, fun i => i, 0, 1, 1, 1⟩ : ImageRef ℕ).pix_iter_inner.rangeStart
        ≤ (⟨1, fun i => i, 0, 1, 1, 1⟩ : ImageRef ℕ).pix_iter_inner.rangeEnd)
    ∧ ((⟨1, fun i => i, 0, 1, 1, 1⟩ : ImageRef ℕ).pix_iter_inner.rangeEnd
        ≤ (⟨1, fun i => i, 0, 1, 1, 1⟩ : ImageRef ℕ).roi_y
            * (⟨1, fun i => i, 0, 1, 1, 1⟩ : ImageRef ℕ).roi_width
          + (⟨1, fun i => i, 0, 1, 1, 1⟩ : ImageRef ℕ).roi_width
            * (⟨1, fun i => i, 0, 1, 1, 1⟩ : ImageRef ℕ).roi_height) :=
  c8_range_invariant _ _ IterReach.init

/-! ## Claim C7 -/

/-- C7 (corrected): the two publicly exposed iterator flavors over a view
(`pix_iter`, the parallel producer, and `pix_iter_serialized`, the
sequential iterator) both enumerate the cells in view-logical row-major
order — the element at position `i` is `get_unchecked (i % width, i / width)`
— and the two yielded sequences are identical for every view; in particular
they do **not** differ when the view is a non-full-width window. -/
theorem c7_iterator_flavors (v : ImageRef α) :
    v.pix_iter_inner.toList
        = (List.range (v.roi_width * v.roi_height)).map
            (fun i => v.get_unchecked (i % v.roi_width) (i / v.roi_width))
    ∧ v.pix_iter_serialized_inner.toList = v.pix_iter_inner.toList := by
  refine ⟨?_, rfl⟩
  unfold ImageRef.pix_iter_inner Iter.toList Iter.addr ImageRef.get_unchecked
  dsimp only
  rw [show v.roi_y * v.roi_width + v.roi_width * v.roi_height - v.roi_y * v.roi_width
      = v.roi_width * v.roi_height from by omega]
  rw [List.range'_eq_map_range, List.map_map]
  apply List.map_congr_left
  intro i hi
  have hi' := List.mem_range.1 hi
  have hw : 0 < v.roi_width := by
    rcases Nat.eq_zero_or_pos v.roi_width with h0 | h0
    · rw [h0] at hi'; omega
    · exact h0
  simp only [Function.comp]
  have hdiv : (v.roi_y * v.roi_width + i) / v.roi_width = v.roi_y + i / v.roi_width := by
    rw [Nat.mul_comm v.roi_y v.roi_width, Nat.mul_add_div hw]
  have hmod : (v.roi_y * v.roi_width + i) % v.roi_width = i % v.roi_width := by
    rw [Nat.mul_comm v.roi_y v.roi_width, Nat.mul_add_mod]
  rw [hdiv, hmod, Nat.mul_comm v.base_width (v.roi_y + i / v.roi_width)]

/-- C7 counterexample to the claim as stated: the 1×2 view at `(0, 0)` of a
2-wide buffer is a non-full-width window, yet the two flavors yield exactly
the same sequence — the claimed "differ exactly when non-full-width" fails. -/
theorem c7_counterexample :
    ((⟨2, fun i => i, 0, 0, 1, 2⟩ : ImageRef ℕ).pix_iter_inner.toList
        = (⟨2, fun i => i, 0, 0, 1, 2⟩ : ImageRef ℕ).pix_iter_serialized_inner.toList)
    ∧ (⟨2, fun i => i, 0, 0, 1, 2⟩ : ImageRef ℕ).roi_width
        ≠ (⟨2, fun i => i, 0, 0, 1, 2⟩ : ImageRef ℕ).base_width :=
  ⟨rfl, by decide⟩

/-! ## Claim C3 -/

/-- Normal form of reading through a single `view_overhang` of a view: for
`(x, y)` inside the requested frame, the cell is present exactly when the
signed position `(x + s, y + t)` lies inside the parent view, and then it is
the parent's cell there. -/
theorem view_overhang_get_eq (p : ImageRef α) (s t : ℤ) (n m x y : ℕ)
    (hx : x < n) (hy : y < m) :
    (p.view_overhang s t n m).get x y
      = if 0 ≤ (x : ℤ) + s ∧ (x : ℤ) + s < (p.roi_width : ℤ)
            ∧ 0 ≤ (y : ℤ) + t ∧ (y : ℤ) + t < (p.roi_height : ℤ)
        then some (p.base ((p.roi_y + ((y : ℤ) + t).toNat) * p.base_width
            + (p.roi_x + ((x : ℤ) + s).toNat)))
        else none := by
  unfold ImageRef.view_overhang ImageRefOverhang.get ImageRefOverhang.is_valid
    ImageRefOverhang.valid_rect Rectangle.contains ImageRefOverhang.get_unchecked
    ImageRef.view_unchecked ImageRef.get_unchecked clampToNat
  dsimp only
  split_ifs with h1 h2 h2
  · have hY : (min (max t 0) (p.roi_height : ℤ)).toNat + p.roi_y
        + (y - (max (-t) 0).toNat) = p.roi_y + ((y : ℤ) + t).toNat := by omega
    rw [hY]
    have hX : (p.roi_y + ((y : ℤ) + t).toNat) * p.base_width
          + ((min (max s 0) (p.roi_width : ℤ)).toNat + p.roi_x) + (x - (max (-s) 0).toNat)
        = (p.roi_y + ((y : ℤ) + t).toNat) * p.base_width
          + (p.roi_x + ((x : ℤ) + s).toNat) := by omega
    rw [hX]
  · exact absurd (by omega) h2
  · exact absurd (by omega) h1
  · rfl

/-- C3 (corrected): composing `view_overhang` twice agrees with the single
direct `view_overhang` at the summed placement **provided the second request
stays inside the first request's frame** (`0 ≤ c`, `c + w ≤ W`, `0 ≤ d`,
`d + h ≤ H`); without that proviso the intermediate window may clip cells
that the direct computation keeps. -/
theorem c3_view_overhang_assoc (p : ImageRef α) (a b : ℤ) (W H : ℕ) (c d : ℤ) (w h : ℕ)
    (x y : ℕ) (hx : x < w) (hy : y < h)
    (hc0 : 0 ≤ c) (hcW : c + w ≤ W) (hd0 : 0 ≤ d) (hdH : d + h ≤ H) :
    ((p.view_overhang a b W H).view_overhang c d w h).get x y
      = (p.view_overhang (a + c) (b + d) w h).get x y := by
  unfold ImageRefOverhang.view_overhang
  rw [view_overhang_get_eq _ _ _ _ _ x y hx hy, view_overhang_get_eq _ _ _ _ _ x y hx hy]
  unfold ImageRef.view_overhang ImageRef.view_unchecked clampToNat
  dsimp only
  split_ifs with h1 h2 h2
  · have hY : (min (max b 0) (p.roi_height : ℤ)).toNat + p.roi_y
        + ((y : ℤ) + (d - ((max (-b) 0).toNat : ℤ))).toNat
          = p.roi_y + ((y : ℤ) + (b + d)).toNat := by omega
    have hX : (min (max a 0) (p.roi_width : ℤ)).toNat + p.roi_x
        + ((x : ℤ) + (c - ((max (-a) 0).toNat : ℤ))).toNat
          = p.roi_x + ((x : ℤ) + (a + c)).toNat := by omega
    rw [hY, hX]
  · exact absurd (by omega) h2
  · exact absurd (by omega) h1
  · rfl

/-- C3 counterexample to the claim as stated: on a 2×1 parent,
`view_overhang(0,0,1,1)` followed by `view_overhang(0,0,2,1)` reads absent
at `(1, 0)` (the intermediate 1-wide window clips it), while the direct
`view_overhang(0+0, 0+0, 2, 1)` reads the parent cell `1` there. -/
theorem c3_counterexample :
    ((((⟨2, fun i => i, 0, 0, 2, 1⟩ : ImageRef ℕ).view_overhang 0 0 1 1).view_overhang 0 0 2 1).get 1 0
        = none)
    ∧ (((⟨2, fun i => i, 0, 0, 2, 1⟩ : ImageRef ℕ).view_overhang (0 + 0) (0 + 0) 2 1).get 1 0
        = some 1) :=
  ⟨rfl, rfl⟩

/-- Witness for `c3_view_overhang_assoc`: a 4×4 parent, first overhang at
`(-1, -1, 4, 4)`, second at `(1, 1, 2, 2)` (inside the first frame), cell
`(0, 0)`. -/
theorem c3_witness :
    ((((⟨4, fun i => i, 0, 0, 4, 4⟩ : ImageRef ℕ).view_overhang (-1) (-1) 4 4).view_overhang 1 1 2 2).get 0 0
      = ((⟨4, fun i => i, 0, 0, 4, 4⟩ : ImageRef ℕ).view_overhang (-1 + 1) (-1 + 1) 2 2).get 0 0) :=
  c3_view_overhang_assoc _ (-1) (-1) 4 4 1 1 2 2 0 0 (by decide) (by decide)
    (by decide) (by decide) (by decide) (by decide)

end Pixter
